import Mathlib

/-!
# Fingerprint enhancement driver (`src/main.cpp`): geometry and compositing pipeline

A shallow embedding of `main` of `src/main.cpp`: padding with `cv::copyMakeBorder`,
the optional downsizing loop around `cv::resize`, the two calls into the enhancement
engine, the mask-driven compositing (`Mat::copyTo` with a mask, `Mat::convertTo`,
`cv::bitwise_or`) and the final crop with `cv::Range`.

The OpenCV calls are embedded with the behaviour OpenCV documents for them, including the
checks that raise `cv::Exception`.  The enhancement engine (`FPEnhancement`, declared in
`fpenhancement.h`) is a parameter.  Images are single-plane grids: a size plus a pixel
accessor; the images of the compositing path hold integers, and element types and channel
counts are not tracked (they are taken single-channel, and 8-bit where OpenCV requires
it).  Floating-point quantities that decide an integer result (the `float` constant `0.9`,
the products `rows * fact`) are computed exactly on scaled naturals; the pixel values that
cubic resampling produces are a parameter.
-/

namespace FpEnhance

/-! ## Numeric layer: the scale factor and the rounding of sizes -/

/-- Halving `N` until it is below `2 ^ p`, counting the halvings (at most `fuel`). -/
def dropBitsAux (p : Nat) : Nat → Nat → Nat
  | 0, _ => 0
  | fuel + 1, N => if N < 2 ^ p then 0 else dropBitsAux p fuel (N / 2) + 1

/-- Number of low-order bits that do not fit when the natural `N` is stored with a
significand of `p` bits: the least `s` with `N < 2 ^ (p + s)`. -/
def dropBits (p N : Nat) : Nat := dropBitsAux p N N

/-- Round `N` to a multiple of `2 ^ s`, to nearest, ties to even (the IEEE 754 default
rounding mode). -/
def roundShift (s N : Nat) : Nat :=
  if 2 * (N % 2 ^ s) > 2 ^ s ∨ (2 * (N % 2 ^ s) = 2 ^ s ∧ (N / 2 ^ s) % 2 = 1)
  then (N / 2 ^ s + 1) * 2 ^ s
  else (N / 2 ^ s) * 2 ^ s

/-- Round the natural `N` to `p` significant bits (ties to even): the value a binary
floating-point format with a `p`-bit significand stores for `N` (and, the exponent being
free, for `N / 2 ^ k`). `p = 24` is `float`, `p = 53` is `double`. -/
def roundToBits (p N : Nat) : Nat := roundShift (dropBits p N) N

/-- The constant `const float fact = 0.9` of `main`, as the numerator of a fraction with
denominator `2 ^ 24`: the `float` nearest to 0.9 is `15099494 / 2 ^ 24`
(`0x3F666666`, about 0.89999998). -/
def fact : Nat := 15099494

/-- The function `cvRound` at the value `D / 2 ^ 24`: nearest integer, ties to even (the
rounding of `lrint` and of the SSE2 conversion). -/
def cvRound (D : Nat) : Nat := roundShift 24 D / 2 ^ 24

/-- One destination dimension of `cv::resize(src, dst, cv::Size(), fact, fact, ...)`:
`saturate_cast<int>(n * fx)` with `fx = (double) fact`; the product is a `double`
multiplication and `saturate_cast<int>` of a `double` is `cvRound`. -/
def resizeDim (n : Nat) : Nat := cvRound (roundToBits 53 (n * fact))

/-- The size printed in verbose mode, `(int) (n * fact)`: `n` is converted to `float`, the
product is a `float` multiplication (evaluated in `float` precision), and the cast
truncates toward zero. -/
def printedDim (n : Nat) : Nat := roundToBits 24 (roundToBits 24 n * fact) / 2 ^ 24

/-! ## Images -/

/-- A `cv::Mat` header with its pixels: `rows`, `cols` and the pixel at row `i`, column `j`
(meaningful for `i < rows`, `j < cols`). -/
structure Mat (α : Type) where
  rows : Nat
  cols : Nat
  px : Nat → Nat → α

/-- The test `m.data != 0`: a matrix owns pixel data exactly when it has at least one
element. -/
def Mat.hasData {α : Type} (m : Mat α) : Bool := decide (0 < m.rows ∧ 0 < m.cols)

/-- The header left by `Mat::release()` followed by `rows = cols = 0`: no rows, no
columns, no data. -/
def Mat.release {α : Type} (m : Mat α) : Mat α := ⟨0, 0, m.px⟩

/-- The pixels of a matrix, row by row. -/
def Mat.toRows {α : Type} (m : Mat α) : List (List α) :=
  (List.range m.rows).map fun i => (List.range m.cols).map fun j => m.px i j

/-- The matrix holding the given rows (all of the length of the first one). -/
def Mat.ofRows {α : Type} (dflt : α) (rs : List (List α)) : Mat α :=
  ⟨rs.length, (rs.headD []).length, fun i j => (rs.getD i []).getD j dflt⟩

/-- Pixel-for-pixel equality of two images: same size and the same value at every
position inside it. -/
def Mat.same {α : Type} (a b : Mat α) : Prop :=
  a.rows = b.rows ∧ a.cols = b.cols ∧ ∀ i, i < a.rows → ∀ j, j < a.cols → a.px i j = b.px i j

/-- The exceptions (`cv::Exception`) the OpenCV calls of `main` can raise; `main` catches
none of them. -/
inductive CvError where
  /-- The `CV_Assert(size() == mask.size())` of `Mat::copyTo(dst, mask)`. -/
  | sizeMismatch
  /-- The `StsUnmatchedSizes` error of `cv::bitwise_or`: neither "array op array" nor an
  array and a scalar. -/
  | unmatchedSizes
  /-- The range assertion of `Mat::operator()(Range, Range)`. -/
  | badRange
  /-- The `StsBadArg` error ("Matrix operand is an empty matrix") of a matrix expression
  built on an empty matrix. -/
  | badArg
  /-- The `CV_Assert(!ssize.empty())` and `CV_Assert(!dsize.empty())` of `cv::resize`. -/
  | emptySize
  deriving DecidableEq, Repr

/-- Whether the exception reports that two images disagree in size. -/
def CvError.isDimensionMismatch : CvError → Bool
  | .sizeMismatch => true
  | .unmatchedSizes => true
  | _ => false

/-! ## Border manager -/

/-- The call `cv::copyMakeBorder(src, dst, top, bottom, left, right, cv::BORDER_CONSTANT, value)`:
the destination is created with `src.rows + top + bottom` rows and
`src.cols + left + right` columns, the source is copied at offset `(top, left)` and every
other pixel is `value`. -/
def copyMakeBorder {α : Type} (src : Mat α) (top bottom left right : Nat) (value : α) : Mat α :=
  { rows := src.rows + top + bottom
    cols := src.cols + left + right
    px := fun i j =>
      if top ≤ i ∧ i < top + src.rows ∧ left ≤ j ∧ j < left + src.cols
      then src.px (i - top) (j - left) else value }

/-- The expression `m(cv::Range(r0, r1), cv::Range(c0, c1))`.  A range equal to
`Range(0, rows)` (resp. `Range(0, cols)`) is taken as is; any other must satisfy
`0 <= start && start <= end && end <= rows` or the constructor throws.  A result without
rows or without columns is released.  (`Range::all()` does not occur in `main`.) -/
def Mat.range {α : Type} (m : Mat α) (r0 r1 c0 c1 : Int) : Except CvError (Mat α) :=
  if ¬ ((r0 = 0 ∧ r1 = m.rows) ∨ (0 ≤ r0 ∧ r0 ≤ r1 ∧ r1 ≤ m.rows)) then .error .badRange
  else if ¬ ((c0 = 0 ∧ c1 = m.cols) ∨ (0 ≤ c0 ∧ c0 ≤ c1 ∧ c1 ≤ m.cols)) then .error .badRange
  else
    let sub : Mat α :=
      ⟨(r1 - r0).toNat, (c1 - c0).toNat, fun i j => m.px (r0.toNat + i) (c0.toNat + j)⟩
    if r1 - r0 ≤ 0 ∨ c1 - c0 ≤ 0 then .ok sub.release else .ok sub

/-- The crop of `main`, for a margin `margin` (20 in `main`):
`m(cv::Range(margin, m.rows - margin), cv::Range(margin, m.cols - margin))`, the
arithmetic being that of `int`. -/
def unpad {α : Type} (margin : Nat) (m : Mat α) : Except CvError (Mat α) :=
  m.range margin ((m.rows : Int) - margin) margin ((m.cols : Int) - margin)

/-! ## Adaptive downsizing -/

/-- What is written to the standard output and which external calls are made, in order. -/
inductive Event where
  /-- The verbose line `Downsizing from (r, c) to (r2, c2)`. -/
  | printDownsizing (fromRows fromCols toRows toCols : Nat)
  /-- The call `fpEnhancement.extractFingerPrints(input)`. -/
  | extractFingerPrints
  /-- The call `fpEnhancement.postProcessingFilter(input)`. -/
  | postProcessingFilter
  /-- The call `cv::imshow("End result", endResult)` and the wait for a key. -/
  | imshow
  /-- The call `cv::imwrite(outputImage, endResult)`. -/
  | imwrite
  deriving DecidableEq, Repr

/-- The cubic resampling of `cv::resize` (`cv::INTER_CUBIC`), a floating-point kernel that
is not embedded: `cubic src rows cols i j` is the pixel `(i, j)` of the `rows x cols`
resampling of `src`. -/
abbrev Resampler (α : Type) := Mat α → Nat → Nat → Nat → Nat → α

/-- The call `cv::resize(src, dst, cv::Size(), fact, fact, cv::INTER_CUBIC)`: the source
must not be empty, the destination size is
`Size(saturate_cast<int>(cols * fx), saturate_cast<int>(rows * fy))` and must not be empty
either. -/
def resize {α : Type} (cubic : Resampler α) (src : Mat α) : Except CvError (Mat α) :=
  if ¬ src.hasData then .error .emptySize
  else if resizeDim src.cols = 0 ∨ resizeDim src.rows = 0 then .error .emptySize
  else .ok ⟨resizeDim src.rows, resizeDim src.cols,
            cubic src (resizeDim src.rows) (resizeDim src.cols)⟩

/-- The condition of the downsizing loop, `input.rows > minRows || input.cols > minCols`. -/
def tooLarge {α : Type} (minRows minCols : Int) (input : Mat α) : Prop :=
  (input.rows : Int) > minRows ∨ (input.cols : Int) > minCols

instance {α : Type} (minRows minCols : Int) (input : Mat α) :
    Decidable (tooLarge minRows minCols input) :=
  inferInstanceAs (Decidable ((input.rows : Int) > minRows ∨ (input.cols : Int) > minCols))

/-- The loop `while (input.rows > minRows || input.cols > minCols) { ... resize ... }` of
`main`, run for at most `fuel` iterations: `none` when the condition still holds after
`fuel` iterations, otherwise the lines printed and either the image on which the condition
failed or the exception that `cv::resize` raised. -/
def downsizeLoop {α : Type} (cubic : Resampler α) (verbose : Bool) (minRows minCols : Int) :
    Nat → Mat α → Option (List Event × Except CvError (Mat α))
  | 0, input =>
    if tooLarge minRows minCols input then none else some ([], .ok input)
  | fuel + 1, input =>
    if tooLarge minRows minCols input then
      let printed :=
        if verbose then
          [Event.printDownsizing input.rows input.cols (printedDim input.rows)
            (printedDim input.cols)]
        else []
      match resize cubic input with
      | .error e => some (printed, .error e)
      | .ok next =>
        match downsizeLoop cubic verbose minRows minCols fuel next with
        | none => none
        | some (evs, r) => some (printed ++ evs, r)
    else some ([], .ok input)

/-! ## Enhancement engine and result compositor -/

/-- The two operations of `FPEnhancement` (`fpenhancement.h`) that `main` calls; their code
is not part of the embedded source. -/
structure FPEnhancement (α : Type) where
  extractFingerPrints : Mat α → Mat Int
  postProcessingFilter : Mat α → Mat Int

/-- The conversion `saturate_cast<uchar>` of an integer value. -/
def saturateU8 (v : Int) : Int := max 0 (min v 255)

/-- The bitwise OR of two 8-bit values. -/
def orU8 (a b : Int) : Int := ((a.toNat ||| b.toNat : Nat) : Int)

/-- The initial `cv::Mat endResult(cv::Scalar::all(0))`: the four zeros of the scalar as a
`4 x 1` column. -/
def endResult0 : Mat Int := ⟨4, 1, fun _ _ => 0⟩

/-- The call `src.copyTo(dst, mask)`.  A mask without data means a plain copy (which
releases the destination when the source is empty).  Otherwise the sizes of source and
mask must agree; the destination is kept if it already has the size of the source and is
reallocated and zeroed if not; then the pixels where the mask is non-zero are copied. -/
def Mat.copyTo (src dst mask : Mat Int) : Except CvError (Mat Int) :=
  if ¬ mask.hasData then .ok (if src.hasData then src else src.release)
  else if ¬ (src.rows = mask.rows ∧ src.cols = mask.cols) then .error .sizeMismatch
  else
    let canvas : Nat → Nat → Int :=
      if dst.rows = src.rows ∧ dst.cols = src.cols then dst.px else fun _ _ => 0
    .ok ⟨src.rows, src.cols, fun i j => if mask.px i j ≠ 0 then src.px i j else canvas i j⟩

/-- The call `m.convertTo(m, CV_8U)`: every value goes through `saturate_cast<uchar>`; an
empty matrix is released. -/
def Mat.convertToU8 (m : Mat Int) : Mat Int :=
  if m.hasData then ⟨m.rows, m.cols, fun i j => saturateU8 (m.px i j)⟩ else m.release

/-- The matrix expression `s - m` on an 8-bit matrix (`255 - filter` in `main`), evaluated
with saturation.  The operator `-` on a scalar and a matrix checks its operand and raises
`StsBadArg` when the matrix is empty. -/
def scalarMinus (s : Int) (m : Mat Int) : Except CvError (Mat Int) :=
  if m.hasData then .ok ⟨m.rows, m.cols, fun i j => saturateU8 (s - m.px i j)⟩
  else .error .badArg

/-- The call `cv::bitwise_or(src1, src2, dst)` on single-channel 8-bit matrices: two arrays
of the same size, or a scalar (a `1 x 1` matrix) and an array, or an array and a scalar;
anything else raises `StsUnmatchedSizes`. -/
def bitwise_or (src1 src2 : Mat Int) : Except CvError (Mat Int) :=
  if src1.rows = src2.rows ∧ src1.cols = src2.cols then
    .ok ⟨src1.rows, src1.cols, fun i j => orU8 (src1.px i j) (src2.px i j)⟩
  else if src1.rows = 1 ∧ src1.cols = 1 then
    .ok ⟨src2.rows, src2.cols, fun i j => orU8 (src1.px 0 0) (src2.px i j)⟩
  else if src2.rows = 1 ∧ src2.cols = 1 then
    .ok ⟨src1.rows, src1.cols, fun i j => orU8 (src1.px i j) (src2.px 0 0)⟩
  else .error .unmatchedSizes

/-- Lines 157 to 166 of `main`, the compositing before the crop:
`enhancedImage.copyTo(endResult, filter); endResult.convertTo(endResult, CV_8U);`
`cv::bitwise_or(endResult, 255 - filter, endResult);`, the argument `255 - filter` being
evaluated before `cv::bitwise_or` is entered. -/
def composite (enhancedImage filter : Mat Int) : Except CvError (Mat Int) :=
  match enhancedImage.copyTo endResult0 filter with
  | .error e => .error e
  | .ok endResult =>
    match scalarMinus 255 filter with
    | .error e => .error e
    | .ok inverted => bitwise_or endResult.convertToU8 inverted

/-- Lines 157 to 167 of `main`, the compositing followed by the crop
`endResult(cv::Range(20, endResult.rows - 20), cv::Range(20, endResult.cols - 20))`. -/
def compositeCrop (enhancedImage filter : Mat Int) : Except CvError (Mat Int) :=
  match composite enhancedImage filter with
  | .error e => .error e
  | .ok endResult => unpad 20 endResult

/-! ## Pipeline driver -/

/-- The command-line options of `main` that the pipeline reads. -/
structure Config where
  showResult : Bool
  downsize : Bool
  saveImage : Bool
  verbose : Bool
  performPostprocessing : Bool
  minRows : Int
  minCols : Int

/-- How a run of `main` ends. -/
inductive Outcome where
  /-- The call `exit(status)`. -/
  | exited (status : Nat)
  /-- An OpenCV exception left `main` uncaught. -/
  | aborted (e : CvError)
  /-- The statement `return status`, with the `endResult` that was shown or saved. -/
  | returned (status : Nat) (endResult : Mat Int)

/-- The image handed to the crop: the composite of the two outputs of the engine when
post-processing is on (lines 146 to 166), the enhanced image itself when it is off
(line 169). -/
def beforeCrop {α : Type} (E : FPEnhancement α) (cfg : Config) (input : Mat α) :
    Except CvError (Mat Int) :=
  if cfg.performPostprocessing then
    composite (E.extractFingerPrints input) (E.postProcessingFilter input)
  else .ok (E.extractFingerPrints input)

/-- The value of `endResult` after line 171: the crop
`endResult(cv::Range(20, endResult.rows - 20), cv::Range(20, endResult.cols - 20))` of the
image of `beforeCrop`. -/
def endResultOf {α : Type} (E : FPEnhancement α) (cfg : Config) (input : Mat α) :
    Except CvError (Mat Int) :=
  match beforeCrop E cfg input with
  | .error e => .error e
  | .ok endResult => unpad 20 endResult

/-- Lines 137 to 183 of `main`, from the working image on: the engine calls, the
compositing or pass-through, the crop, then display and save. -/
def finish {α : Type} (E : FPEnhancement α) (cfg : Config) (input : Mat α) :
    List Event × Outcome :=
  let calls :=
    if cfg.performPostprocessing then [Event.extractFingerPrints, Event.postProcessingFilter]
    else [Event.extractFingerPrints]
  match endResultOf E cfg input with
  | .error e => (calls, .aborted e)
  | .ok endResult =>
    (calls ++ (if cfg.showResult then [Event.imshow] else [])
           ++ (if cfg.saveImage then [Event.imwrite] else []),
     .returned 0 endResult)

/-- The downsizing stage, lines 125 to 135: the loop when `downsize` is set, nothing
otherwise. -/
def downsizeStage {α : Type} (cubic : Resampler α) (cfg : Config) (fuel : Nat)
    (input : Mat α) : Option (List Event × Except CvError (Mat α)) :=
  if cfg.downsize then downsizeLoop cubic cfg.verbose cfg.minRows cfg.minCols fuel input
  else some ([], .ok input)

/-- The function `main` from line 114 on, for the decoded image `decoded` (the result of
`cv::imread`, empty when the file could not be read) and the border colour `value`
(`cv::Scalar(255, 255, 255)`); `fuel` bounds the iterations of the downsizing loop and
`none` means that it was exhausted. -/
def main {α : Type} (E : FPEnhancement α) (cubic : Resampler α) (cfg : Config) (value : α)
    (decoded : Mat α) (fuel : Nat) : Option (List Event × Outcome) :=
  let input := copyMakeBorder decoded 20 20 20 20 value
  if ¬ input.hasData then some ([], .exited 1)
  else
    match downsizeStage cubic cfg fuel input with
    | none => none
    | some (evs, .error e) => some (evs, .aborted e)
    | some (evs, .ok working) =>
      some (evs ++ (finish E cfg working).1, (finish E cfg working).2)

/-! ## Concrete inputs used to exercise the definitions -/

/-- An engine that returns its input as the enhanced image and an all-foreground mask of
the same size. -/
def identityEngine : FPEnhancement Int :=
  ⟨fun m => m, fun m => ⟨m.rows, m.cols, fun _ _ => 255⟩⟩

/-- An engine that returns its input as the enhanced image and an empty mask. -/
def masklessEngine : FPEnhancement Int :=
  ⟨fun m => m, fun _ => ⟨0, 0, fun _ _ => 0⟩⟩

/-- Nearest-neighbour resampling, standing in for the cubic kernel. -/
def nearestResampler : Resampler Int :=
  fun src rows cols i j => src.px (i * src.rows / rows) (j * src.cols / cols)

/-- A grey image of the given size. -/
def grey (rows cols : Nat) : Mat Int := ⟨rows, cols, fun _ _ => 128⟩

/-- The options of a run with the given switches, display and save both on. -/
def options (downsize verbose performPostprocessing : Bool) (minRows minCols : Int) : Config :=
  { showResult := true, downsize := downsize, saveImage := true, verbose := verbose,
    performPostprocessing := performPostprocessing, minRows := minRows, minCols := minCols }

/-! ## Lemmas on the rounding of sizes -/

/-- The numerator `fact` is a 24-bit significand and `fact / 2 ^ 24` lies within half a
unit in the last place of 0.9: it is the `float` nearest to 0.9. -/
theorem fact_nearest_float :
    2 ^ 23 ≤ fact ∧ fact < 2 ^ 24 ∧ 10 * fact ≤ 9 * 2 ^ 24 ∧ 9 * 2 ^ 24 < 10 * fact + 5 := by
  decide

theorem dropBitsAux_spec (p : Nat) (fuel N : Nat) :
    dropBitsAux p fuel N = 0 ∨ 2 ^ dropBitsAux p fuel N * 2 ^ p ≤ 2 * N := by
  induction fuel generalizing N with
  | zero => left; rfl
  | succ fuel ih =>
    unfold dropBitsAux
    by_cases h : N < 2 ^ p
    · left; simp [h]
    · right
      simp only [h, if_false]
      rcases ih (N / 2) with h0 | h1
      · rw [h0]
        have : 2 ^ (0 + 1) * 2 ^ p = 2 * 2 ^ p := by ring
        omega
      · have e : 2 ^ (dropBitsAux p fuel (N / 2) + 1) * 2 ^ p
            = 2 * (2 ^ dropBitsAux p fuel (N / 2) * 2 ^ p) := by ring
        rw [e]
        omega

theorem roundShift_zero (N : Nat) : roundShift 0 N = N := by
  simp [roundShift, Nat.mod_one]

theorem roundShift_bounds (s N : Nat) :
    2 * roundShift s N ≤ 2 * N + 2 ^ s ∧ 2 * N ≤ 2 * roundShift s N + 2 ^ s := by
  have hd : 0 < 2 ^ s := Nat.two_pow_pos s
  have hN : 2 ^ s * (N / 2 ^ s) + N % 2 ^ s = N := Nat.div_add_mod N (2 ^ s)
  have hr : N % 2 ^ s < 2 ^ s := Nat.mod_lt N hd
  have e1 : (N / 2 ^ s + 1) * 2 ^ s = 2 ^ s * (N / 2 ^ s) + 2 ^ s := by ring
  have e2 : (N / 2 ^ s) * 2 ^ s = 2 ^ s * (N / 2 ^ s) := by ring
  unfold roundShift
  split
  · rw [e1]; omega
  · rw [e2]; omega

/-- Rounding to a 53-bit significand moves a value by at most one part in `2 ^ 53`. -/
theorem roundToBits53_bounds (N : Nat) :
    2 ^ 53 * roundToBits 53 N ≤ 2 ^ 53 * N + N ∧ 2 ^ 53 * N ≤ 2 ^ 53 * roundToBits 53 N + N := by
  unfold roundToBits dropBits
  rcases dropBitsAux_spec 53 N N with h0 | h1
  · rw [h0, roundShift_zero]; omega
  · have hb := roundShift_bounds (dropBitsAux 53 N N) N
    generalize 2 ^ dropBitsAux 53 N N = d at h1 hb
    generalize roundShift (dropBitsAux 53 N N) N = D at hb
    omega

theorem cvRound_bounds (D : Nat) :
    2 ^ 24 * cvRound D ≤ D + 2 ^ 23 ∧ D ≤ 2 ^ 24 * cvRound D + 2 ^ 23 := by
  have hb := roundShift_bounds 24 D
  have hdvd : roundShift 24 D = 2 ^ 24 * (roundShift 24 D / 2 ^ 24) := by
    unfold roundShift
    split
    · rw [Nat.mul_div_cancel _ (Nat.two_pow_pos 24)]; ring
    · rw [Nat.mul_div_cancel _ (Nat.two_pow_pos 24)]; ring
  unfold cvRound
  generalize roundShift 24 D = R at hb hdvd
  omega

/-- A dimension never grows under `cv::resize` with the factor `fact`. -/
theorem resizeDim_le (n : Nat) : resizeDim n ≤ n := by
  have h1 := roundToBits53_bounds (n * fact)
  have h2 := cvRound_bounds (roundToBits 53 (n * fact))
  unfold resizeDim
  unfold fact at *
  generalize roundToBits 53 (n * 15099494) = D at h1 h2
  generalize cvRound D = r at h2
  omega

/-- A dimension of at least 5 strictly shrinks under `cv::resize` with the factor `fact`. -/
theorem resizeDim_lt (n : Nat) (h : 5 ≤ n) : resizeDim n < n := by
  have h1 := roundToBits53_bounds (n * fact)
  have h2 := cvRound_bounds (roundToBits 53 (n * fact))
  unfold resizeDim
  unfold fact at *
  generalize roundToBits 53 (n * 15099494) = D at h1 h2
  generalize cvRound D = r at h2
  omega

/-- A positive dimension stays positive under `cv::resize` with the factor `fact`. -/
theorem resizeDim_pos (n : Nat) (h : 1 ≤ n) : 1 ≤ resizeDim n := by
  have h1 := roundToBits53_bounds (n * fact)
  have h2 := cvRound_bounds (roundToBits 53 (n * fact))
  unfold resizeDim
  unfold fact at *
  generalize roundToBits 53 (n * 15099494) = D at h1 h2
  generalize cvRound D = r at h2
  omega

/-- A dimension never falls below 4, or below itself when it is smaller than 4. -/
theorem resizeDim_ge_min (n : Nat) : min n 4 ≤ resizeDim n := by
  have h1 := roundToBits53_bounds (n * fact)
  have h2 := cvRound_bounds (roundToBits 53 (n * fact))
  unfold resizeDim
  unfold fact at *
  generalize roundToBits 53 (n * 15099494) = D at h1 h2
  generalize cvRound D = r at h2
  rcases Nat.le_total n 4 with h | h
  · rw [Nat.min_eq_left h]; omega
  · rw [Nat.min_eq_right h]; omega

/-- The sizes 0 to 4 are the fixed points of the resizing of a dimension. -/
theorem resizeDim_eq_self_iff (n : Nat) : resizeDim n = n ↔ n ≤ 4 := by
  constructor
  · intro h
    by_contra hn
    have := resizeDim_lt n (by omega)
    omega
  · intro h
    have h1 := resizeDim_ge_min n
    have h2 := resizeDim_le n
    rw [Nat.min_eq_left h] at h1
    omega

theorem dropBitsAux_lt (p : Nat) (fuel N : Nat) (h : N ≤ fuel) :
    N < 2 ^ (p + dropBitsAux p fuel N) := by
  induction fuel generalizing N with
  | zero =>
    have : N = 0 := by omega
    subst this
    exact Nat.two_pow_pos _
  | succ fuel ih =>
    unfold dropBitsAux
    by_cases hN : N < 2 ^ p
    · simp [hN]
    · simp only [hN, if_false]
      have hpos : 0 < 2 ^ p := Nat.two_pow_pos p
      have := ih (N / 2) (by omega)
      have e : 2 ^ (p + (dropBitsAux p fuel (N / 2) + 1))
          = 2 * 2 ^ (p + dropBitsAux p fuel (N / 2)) := by ring
      rw [e]
      omega

/-- The shift chosen by `dropBits` is large enough: the rounded significand has at most
`p` bits before rounding up. -/
theorem dropBits_lt (p N : Nat) : N < 2 ^ (p + dropBits p N) :=
  dropBitsAux_lt p N N (Nat.le_refl N)

/-! ## Lemmas on the downsizing loop -/

theorem resize_ok {α : Type} (cubic : Resampler α) (src : Mat α)
    (hr : 1 ≤ src.rows) (hc : 1 ≤ src.cols) :
    resize cubic src = .ok ⟨resizeDim src.rows, resizeDim src.cols,
      cubic src (resizeDim src.rows) (resizeDim src.cols)⟩ := by
  have h1 := resizeDim_pos src.rows hr
  have h2 := resizeDim_pos src.cols hc
  have hd : src.hasData = true := by simp [Mat.hasData]; omega
  unfold resize
  rw [if_neg (by simp [hd]), if_neg (by omega)]

theorem downsizeLoop_of_not_tooLarge {α : Type} (cubic : Resampler α) (verbose : Bool)
    (minRows minCols : Int) (fuel : Nat) (input : Mat α)
    (h : ¬ tooLarge minRows minCols input) :
    downsizeLoop cubic verbose minRows minCols fuel input = some ([], .ok input) := by
  cases fuel <;> simp [downsizeLoop, h]

theorem downsizeLoop_exit {α : Type} (cubic : Resampler α) (verbose : Bool)
    (minRows minCols : Int) (fuel : Nat) (input : Mat α) (evs : List Event) (m : Mat α)
    (h : downsizeLoop cubic verbose minRows minCols fuel input = some (evs, .ok m)) :
    ¬ tooLarge minRows minCols m := by
  induction fuel generalizing input evs with
  | zero =>
    unfold downsizeLoop at h
    by_cases hc : tooLarge minRows minCols input
    · simp [hc] at h
    · simp [hc] at h
      rw [← h.2]; exact hc
  | succ fuel ih =>
    unfold downsizeLoop at h
    by_cases hc : tooLarge minRows minCols input
    · simp only [hc, if_true] at h
      cases hres : resize cubic input with
      | error e => simp [hres] at h
      | ok next =>
        simp only [hres] at h
        cases hrec : downsizeLoop cubic verbose minRows minCols fuel next with
        | none => simp [hrec] at h
        | some pr =>
          obtain ⟨evs2, r⟩ := pr
          simp only [hrec] at h
          have h2 : r = .ok m := by
            have := (Prod.mk.inj (Option.some.inj h)).2
            exact this
          subst h2
          exact ih next evs2 hrec
    · simp [hc] at h
      rw [← h.2]; exact hc

/-- A bound below the size at which a dimension stops shrinking keeps the loop condition
true forever: no amount of fuel lets the loop exit. -/
theorem downsizeLoop_diverges {α : Type} (cubic : Resampler α) (verbose : Bool)
    (minRows minCols : Int) (fuel : Nat) (input : Mat α)
    (hr : 1 ≤ input.rows) (hc : 1 ≤ input.cols)
    (hmin : minRows < ((min input.rows 4 : Nat) : Int)
      ∨ minCols < ((min input.cols 4 : Nat) : Int)) :
    downsizeLoop cubic verbose minRows minCols fuel input = none := by
  have ht : tooLarge minRows minCols input := by
    unfold tooLarge
    have h1 : min input.rows 4 ≤ input.rows := Nat.min_le_left _ _
    have h2 : min input.cols 4 ≤ input.cols := Nat.min_le_left _ _
    omega
  induction fuel generalizing input with
  | zero => simp [downsizeLoop, ht]
  | succ fuel ih =>
    unfold downsizeLoop
    simp only [ht, if_true, resize_ok cubic input hr hc]
    have g1 := resizeDim_ge_min input.rows
    have g2 := resizeDim_ge_min input.cols
    have hmin2 : minRows < ((min (resizeDim input.rows) 4 : Nat) : Int)
        ∨ minCols < ((min (resizeDim input.cols) 4 : Nat) : Int) := by
      have a1 : min input.rows 4 ≤ min (resizeDim input.rows) 4 :=
        Nat.le_min.2 ⟨g1, Nat.min_le_right _ _⟩
      have a2 : min input.cols 4 ≤ min (resizeDim input.cols) 4 :=
        Nat.le_min.2 ⟨g2, Nat.min_le_right _ _⟩
      omega
    have ht2 : tooLarge minRows minCols (⟨resizeDim input.rows, resizeDim input.cols,
        cubic input (resizeDim input.rows) (resizeDim input.cols)⟩ : Mat α) := by
      unfold tooLarge
      have h1 : min (resizeDim input.rows) 4 ≤ resizeDim input.rows := Nat.min_le_left _ _
      have h2 : min (resizeDim input.cols) 4 ≤ resizeDim input.cols := Nat.min_le_left _ _
      show ((resizeDim input.rows : Nat) : Int) > minRows
        ∨ ((resizeDim input.cols : Nat) : Int) > minCols
      omega
    rw [ih _ (resizeDim_pos _ hr) (resizeDim_pos _ hc) hmin2 ht2]

/-- With bounds that the shrinking dimensions can reach the loop exits within
`rows + cols` iterations. -/
theorem downsizeLoop_terminates {α : Type} (cubic : Resampler α) (verbose : Bool)
    (minRows minCols : Int) (fuel : Nat) (input : Mat α)
    (hr : 1 ≤ input.rows) (hc : 1 ≤ input.cols)
    (hmr : ((min input.rows 4 : Nat) : Int) ≤ minRows)
    (hmc : ((min input.cols 4 : Nat) : Int) ≤ minCols)
    (hf : input.rows + input.cols ≤ fuel) :
    ∃ evs m, downsizeLoop cubic verbose minRows minCols fuel input = some (evs, .ok m) := by
  induction fuel generalizing input with
  | zero => omega
  | succ fuel ih =>
    by_cases ht : tooLarge minRows minCols input
    · unfold downsizeLoop
      simp only [ht, if_true, resize_ok cubic input hr hc]
      have hle1 := resizeDim_le input.rows
      have hle2 := resizeDim_le input.cols
      have hdec : resizeDim input.rows + resizeDim input.cols ≤ fuel := by
        unfold tooLarge at ht
        rcases ht with h | h
        · have h5 : 5 ≤ input.rows := by
            by_contra hn
            rw [Nat.min_eq_left (by omega)] at hmr
            omega
          have := resizeDim_lt input.rows h5; omega
        · have h5 : 5 ≤ input.cols := by
            by_contra hn
            rw [Nat.min_eq_left (by omega)] at hmc
            omega
          have := resizeDim_lt input.cols h5; omega
      have b1 : ((min (resizeDim input.rows) 4 : Nat) : Int) ≤ minRows := by
        have : min (resizeDim input.rows) 4 ≤ min input.rows 4 :=
          Nat.le_min.2 ⟨Nat.le_trans (Nat.min_le_left _ _) hle1, Nat.min_le_right _ _⟩
        omega
      have b2 : ((min (resizeDim input.cols) 4 : Nat) : Int) ≤ minCols := by
        have : min (resizeDim input.cols) 4 ≤ min input.cols 4 :=
          Nat.le_min.2 ⟨Nat.le_trans (Nat.min_le_left _ _) hle2, Nat.min_le_right _ _⟩
        omega
      obtain ⟨evs, m, hm⟩ := ih ⟨resizeDim input.rows, resizeDim input.cols,
        cubic input (resizeDim input.rows) (resizeDim input.cols)⟩
        (resizeDim_pos _ hr) (resizeDim_pos _ hc) b1 b2 hdec
      rw [hm]
      exact ⟨_, m, rfl⟩
    · exact ⟨[], input, downsizeLoop_of_not_tooLarge cubic verbose minRows minCols _ input ht⟩

/-- The verbose flag only adds printed lines: the image the loop ends on, or the fact that
it does not end within the fuel, is the same with and without it. -/
theorem downsizeLoop_verbose_irrelevant {α : Type} (cubic : Resampler α)
    (minRows minCols : Int) (fuel : Nat) (input : Mat α) :
    (downsizeLoop cubic true minRows minCols fuel input).map Prod.snd
      = (downsizeLoop cubic false minRows minCols fuel input).map Prod.snd := by
  induction fuel generalizing input with
  | zero => unfold downsizeLoop; split <;> rfl
  | succ fuel ih =>
    unfold downsizeLoop
    by_cases ht : tooLarge minRows minCols input
    · simp only [ht, if_true]
      cases hres : resize cubic input with
      | error e => rfl
      | ok next =>
        have := ih next
        simp only
        cases h1 : downsizeLoop cubic true minRows minCols fuel next <;>
          cases h2 : downsizeLoop cubic false minRows minCols fuel next <;>
          simp_all
    · simp [ht]

/-! ## Lemmas on the crop and on the compositing -/

theorem unpad_ok {α : Type} (k : Nat) (m : Mat α) (hr : 2 * k < m.rows) (hc : 2 * k < m.cols) :
    ∃ r, unpad k m = .ok r ∧ r.rows = m.rows - 2 * k ∧ r.cols = m.cols - 2 * k
      ∧ ∀ i j, r.px i j = m.px (k + i) (k + j) := by
  refine ⟨⟨m.rows - 2 * k, m.cols - 2 * k, fun i j => m.px (k + i) (k + j)⟩, ?_, rfl, rfl,
    fun _ _ => rfl⟩
  unfold unpad Mat.range
  rw [if_neg (by omega), if_neg (by omega)]
  simp only
  rw [if_neg (by omega)]
  have e1 : ((m.rows : Int) - k - k).toNat = m.rows - 2 * k := by omega
  have e2 : ((m.cols : Int) - k - k).toNat = m.cols - 2 * k := by omega
  simp only [e1, e2, Int.toNat_ofNat]

theorem unpad_error_iff {α : Type} (k : Nat) (m : Mat α) :
    (∃ e, unpad k m = .error e) ↔ (m.rows < 2 * k ∨ m.cols < 2 * k) := by
  unfold unpad Mat.range
  constructor
  · intro ⟨e, h⟩
    by_contra hn
    rw [if_neg (by omega), if_neg (by omega)] at h
    simp only at h
    split at h <;> cases h
  · intro h
    by_cases h1 : m.rows < 2 * k
    · exact ⟨.badRange, by rw [if_pos (by omega)]⟩
    · refine ⟨.badRange, ?_⟩
      rw [if_neg (by omega), if_pos (by omega)]

theorem unpad_error_kind {α : Type} (k : Nat) (m : Mat α) (e : CvError)
    (h : unpad k m = .error e) : e = .badRange := by
  unfold unpad Mat.range at h
  split at h
  · cases h; rfl
  · split at h
    · cases h; rfl
    · simp only at h
      split at h <;> cases h

theorem unpad_empty {α : Type} (k : Nat) (m : Mat α) (hr : 2 * k ≤ m.rows)
    (hc : 2 * k ≤ m.cols) (h : m.rows = 2 * k ∨ m.cols = 2 * k) :
    ∃ r, unpad k m = .ok r ∧ r.rows = 0 ∧ r.cols = 0 := by
  unfold unpad Mat.range
  rw [if_neg (by omega), if_neg (by omega)]
  simp only
  rw [if_pos (by omega)]
  exact ⟨_, rfl, rfl, rfl⟩

theorem saturateU8_of_range (v : Int) (h0 : 0 ≤ v) (h1 : v ≤ 255) : saturateU8 v = v := by
  unfold saturateU8; omega

theorem orU8_zero (a : Int) (h : 0 ≤ a) : orU8 a 0 = a := by
  unfold orU8
  simp [Int.toNat_of_nonneg h]

theorem composite_ok (enhancedImage filter : Mat Int)
    (hr : enhancedImage.rows = filter.rows) (hc : enhancedImage.cols = filter.cols)
    (hd : filter.hasData = true) :
    ∃ r, composite enhancedImage filter = .ok r ∧ r.rows = enhancedImage.rows
      ∧ r.cols = enhancedImage.cols
      ∧ ∀ i j, r.px i j
          = orU8 (saturateU8 (if filter.px i j ≠ 0 then enhancedImage.px i j else 0))
              (saturateU8 (255 - filter.px i j)) := by
  have hd2 : enhancedImage.hasData = true := by
    simp [Mat.hasData] at hd ⊢; omega
  have hcopy : enhancedImage.copyTo endResult0 filter
      = .ok ⟨enhancedImage.rows, enhancedImage.cols,
          fun i j => if filter.px i j ≠ 0 then enhancedImage.px i j else 0⟩ := by
    unfold Mat.copyTo
    rw [if_neg (by simp [hd]), if_neg (by simp [hr, hc])]
    by_cases h4 : endResult0.rows = enhancedImage.rows ∧ endResult0.cols = enhancedImage.cols
    · simp [h4, endResult0]
    · simp [h4]
  unfold composite
  rw [hcopy]
  simp only
  have hconv : (Mat.convertToU8 ⟨enhancedImage.rows, enhancedImage.cols,
          fun i j => if filter.px i j ≠ 0 then enhancedImage.px i j else 0⟩)
      = ⟨enhancedImage.rows, enhancedImage.cols,
          fun i j => saturateU8 (if filter.px i j ≠ 0 then enhancedImage.px i j else 0)⟩ := by
    unfold Mat.convertToU8
    have : (Mat.hasData (⟨enhancedImage.rows, enhancedImage.cols,
          fun i j => if filter.px i j ≠ 0 then enhancedImage.px i j else 0⟩ : Mat Int)) = true := by
      simpa [Mat.hasData] using hd2
    rw [if_pos this]
  rw [hconv]
  unfold scalarMinus
  rw [if_pos hd]
  simp only
  unfold bitwise_or
  rw [if_pos ⟨hr, hc⟩]
  exact ⟨_, rfl, rfl, rfl, fun _ _ => rfl⟩

theorem composite_of_no_mask (enhancedImage filter : Mat Int) (hd : filter.hasData = false) :
    composite enhancedImage filter = .error .badArg := by
  unfold composite Mat.copyTo scalarMinus
  simp only [hd, Bool.false_eq_true, not_false_eq_true, if_true, if_false]

/-! ## Lemmas on the driver -/

theorem padded_hasData {α : Type} (decoded : Mat α) (value : α) :
    (copyMakeBorder decoded 20 20 20 20 value).hasData = true := by
  simp [Mat.hasData, copyMakeBorder]

theorem main_of_not_downsize {α : Type} (E : FPEnhancement α) (cubic : Resampler α)
    (cfg : Config) (value : α) (decoded : Mat α) (fuel : Nat) (hdown : cfg.downsize = false) :
    main E cubic cfg value decoded fuel
      = some (finish E cfg (copyMakeBorder decoded 20 20 20 20 value)) := by
  unfold main
  simp only [padded_hasData, not_true_eq_false, if_false]
  unfold downsizeStage
  simp only [hdown, Bool.false_eq_true, if_false, List.nil_append]

theorem finish_of_ok {α : Type} (E : FPEnhancement α) (cfg : Config) (input : Mat α)
    (r : Mat Int) (h : endResultOf E cfg input = .ok r) :
    ∃ evs, finish E cfg input = (evs, .returned 0 r) := by
  unfold finish
  simp only [h]
  exact ⟨_, rfl⟩

theorem finish_calls_engine {α : Type} (E : FPEnhancement α) (cfg : Config) (input : Mat α) :
    Event.extractFingerPrints ∈ (finish E cfg input).1 := by
  unfold finish
  cases endResultOf E cfg input <;> by_cases hp : cfg.performPostprocessing = true <;>
    simp [hp]

theorem finish_not_exited {α : Type} (E : FPEnhancement α) (cfg : Config) (input : Mat α)
    (status : Nat) : (finish E cfg input).2 ≠ .exited status := by
  unfold finish
  cases endResultOf E cfg input <;> simp

/-! ## The claims -/

/-- C1 (geometry round-trip). For a decoded image of size `(H, W)` with `H, W ≥ 1`, with
downsizing disabled and an engine whose two outputs have the size of its input, the padded
image has size `(H + 2 * 20, W + 2 * 20)` and `main` returns an `endResult` of size exactly
`(H, W)`, whether post-processing is enabled or not. -/
theorem geometry_round_trip {α : Type} (E : FPEnhancement α) (cubic : Resampler α)
    (cfg : Config) (value : α) (decoded : Mat α) (fuel : Nat)
    (hH : 1 ≤ decoded.rows) (hW : 1 ≤ decoded.cols) (hdown : cfg.downsize = false)
    (hE : ∀ m, (E.extractFingerPrints m).rows = m.rows ∧ (E.extractFingerPrints m).cols = m.cols)
    (hF : ∀ m, (E.postProcessingFilter m).rows = m.rows
      ∧ (E.postProcessingFilter m).cols = m.cols) :
    (copyMakeBorder decoded 20 20 20 20 value).rows = decoded.rows + 2 * 20
    ∧ (copyMakeBorder decoded 20 20 20 20 value).cols = decoded.cols + 2 * 20
    ∧ ∃ evs endResult, main E cubic cfg value decoded fuel = some (evs, .returned 0 endResult)
        ∧ endResult.rows = decoded.rows ∧ endResult.cols = decoded.cols := by
  refine ⟨rfl, rfl, ?_⟩
  rw [main_of_not_downsize E cubic cfg value decoded fuel hdown]
  have hpr : (copyMakeBorder decoded 20 20 20 20 value).rows = decoded.rows + 40 := rfl
  have hpc : (copyMakeBorder decoded 20 20 20 20 value).cols = decoded.cols + 40 := rfl
  have hdata : (copyMakeBorder decoded 20 20 20 20 value).hasData = true := by
    simp [Mat.hasData, hpr, hpc]
  generalize copyMakeBorder decoded 20 20 20 20 value = input at hpr hpc hdata
  have hcrop : ∃ r, endResultOf E cfg input = .ok r ∧ r.rows = decoded.rows
      ∧ r.cols = decoded.cols := by
    unfold endResultOf beforeCrop
    by_cases hp : cfg.performPostprocessing = true
    · rw [if_pos hp]
      have hfd : (E.postProcessingFilter input).hasData = true := by
        simp [Mat.hasData, (hF input).1, (hF input).2, hpr, hpc]
      obtain ⟨c, hc, hcr, hcc, -⟩ := composite_ok (E.extractFingerPrints input)
        (E.postProcessingFilter input) (by rw [(hE input).1, (hF input).1])
        (by rw [(hE input).2, (hF input).2]) hfd
      rw [hc]
      obtain ⟨r, hr, hrr, hrc, -⟩ := unpad_ok 20 c
        (by rw [hcr, (hE input).1]; omega) (by rw [hcc, (hE input).2]; omega)
      refine ⟨r, hr, ?_, ?_⟩
      · rw [hrr, hcr, (hE input).1]; omega
      · rw [hrc, hcc, (hE input).2]; omega
    · rw [if_neg hp]
      obtain ⟨r, hr, hrr, hrc, -⟩ := unpad_ok 20 (E.extractFingerPrints input)
        (by rw [(hE input).1]; omega) (by rw [(hE input).2]; omega)
      refine ⟨r, hr, ?_, ?_⟩
      · rw [hrr, (hE input).1]; omega
      · rw [hrc, (hE input).2]; omega
  obtain ⟨r, hr, hrr, hrc⟩ := hcrop
  obtain ⟨evs, hevs⟩ := finish_of_ok E cfg input r hr
  exact ⟨evs, r, by rw [hevs], hrr, hrc⟩

/-- Witness for C1: a 1 x 1 image through the identity engine, post-processing on. -/
theorem geometry_round_trip_witness :
    ∃ evs endResult,
      main identityEngine nearestResampler (options false false true 1000 1000) 255
          (grey 1 1) 0 = some (evs, .returned 0 endResult)
        ∧ endResult.rows = 1 ∧ endResult.cols = 1 :=
  (geometry_round_trip identityEngine nearestResampler (options false false true 1000 1000)
    255 (grey 1 1) 0 (by decide) (by decide) rfl (fun _ => ⟨rfl, rfl⟩)
    (fun _ => ⟨rfl, rfl⟩)).2.2

/-- Padding then cropping with the same margin gives the image back, for every image
with at least one pixel. -/
theorem crop_of_padded {α : Type} (img : Mat α) (m : Nat) (c : α)
    (hr : 0 < img.rows) (hc : 0 < img.cols) :
    ∃ r, unpad m (copyMakeBorder img m m m m c) = .ok r ∧ r.same img := by
  obtain ⟨r, hr1, hr2, hr3, hr4⟩ := unpad_ok m (copyMakeBorder img m m m m c)
    (by show 2 * m < img.rows + m + m; omega) (by show 2 * m < img.cols + m + m; omega)
  refine ⟨r, hr1, ?_, ?_, ?_⟩
  · rw [hr2]; show img.rows + m + m - 2 * m = img.rows; omega
  · rw [hr3]; show img.cols + m + m - 2 * m = img.cols; omega
  · intro i hi j hj
    rw [hr2] at hi
    rw [hr3] at hj
    have hi2 : i < img.rows := by
      have : (copyMakeBorder img m m m m c).rows = img.rows + m + m := rfl
      omega
    have hj2 : j < img.cols := by
      have : (copyMakeBorder img m m m m c).cols = img.cols + m + m := rfl
      omega
    rw [hr4]
    show (if m ≤ m + i ∧ m + i < m + img.rows ∧ m ≤ m + j ∧ m + j < m + img.cols
      then img.px (m + i - m) (m + j - m) else c) = img.px i j
    rw [if_pos (by omega)]
    simp

/-- C2 (pad/unpad inverse). For every image `img` of size `(H, W)`, every margin `m` with
`2 * m < min H W` and every colour `c`, cropping the interior
`[m, H + 2m - m) x [m, W + 2m - m)` of `img` padded by `m` pixels of colour `c` on all four
sides succeeds and gives back `img` pixel for pixel. -/
theorem unpad_copyMakeBorder {α : Type} (img : Mat α) (m : Nat) (c : α)
    (hm : 2 * m < min img.rows img.cols) :
    ∃ r, unpad m (copyMakeBorder img m m m m c) = .ok r ∧ r.same img :=
  crop_of_padded img m c (by omega) (by omega)

/-- Witness for C2: a 3 x 4 image and margin 1. -/
theorem unpad_copyMakeBorder_witness :
    2 * 1 < min (grey 3 4).rows (grey 3 4).cols
    ∧ ∃ r, unpad 1 (copyMakeBorder (grey 3 4) 1 1 1 1 255) = .ok r ∧ r.same (grey 3 4) :=
  ⟨by decide, unpad_copyMakeBorder (grey 3 4) 1 255 (by decide)⟩

/-- C3 (mask-driven fusion). For every 8-bit enhanced image and every mask of the same
size with values in `{0, 255}`, the composite before the crop (masked copy onto a zero
canvas, conversion to 8 bits, bitwise OR with `255 - mask`) has the size of the enhanced
image, equals the enhanced value at every pixel where the mask is 255 and 255 at every
other pixel, where the mask is 0; and for the enhanced image `[[10, 20], [30, 40]]` with
the mask `[[255, 0], [0, 255]]` it is `[[10, 255], [255, 40]]`. (For a pair of images
without any pixel, of which the claim says nothing, `255 - mask` raises.) -/
theorem mask_fusion :
    (∀ enhancedImage filter : Mat Int,
      enhancedImage.rows = filter.rows → enhancedImage.cols = filter.cols →
      (∀ i, i < enhancedImage.rows → ∀ j, j < enhancedImage.cols →
        0 ≤ enhancedImage.px i j ∧ enhancedImage.px i j ≤ 255) →
      (∀ i, i < filter.rows → ∀ j, j < filter.cols →
        filter.px i j = 0 ∨ filter.px i j = 255) →
      (enhancedImage.hasData = true →
        ∃ r, composite enhancedImage filter = .ok r
          ∧ r.rows = enhancedImage.rows ∧ r.cols = enhancedImage.cols
          ∧ ∀ i, i < enhancedImage.rows → ∀ j, j < enhancedImage.cols →
              r.px i j = if filter.px i j = 255 then enhancedImage.px i j else 255)
      ∧ (enhancedImage.hasData = false →
          composite enhancedImage filter = .error .badArg))
    ∧ (composite (Mat.ofRows 0 [[10, 20], [30, 40]])
          (Mat.ofRows 0 [[255, 0], [0, 255]])).toOption.map Mat.toRows
        = some [[10, 255], [255, 40]] := by
  refine ⟨?_, by decide⟩
  intro enhancedImage filter hr hc h8 hmask
  have hsame : filter.hasData = enhancedImage.hasData := by
    simp only [Mat.hasData, hr, hc]
  constructor
  · intro he
    obtain ⟨r, hok, hrr, hrc, hpx⟩ :=
      composite_ok enhancedImage filter hr hc (hsame.trans he)
    refine ⟨r, hok, hrr, hrc, ?_⟩
    intro i hi j hj
    have hb := h8 i hi j hj
    rcases hmask i (by omega) j (by omega) with h0 | h255
    · rw [hpx, h0]
      simp only [ne_eq, not_true_eq_false, if_false, show ¬ ((0 : Int) = 255) by decide]
      decide
    · rw [hpx, h255]
      simp only [ne_eq, show ¬ ((255 : Int) = 0) by decide, not_false_eq_true, if_true]
      rw [saturateU8_of_range _ hb.1 hb.2]
      have : saturateU8 (255 - 255) = 0 := by decide
      rw [this, orU8_zero _ hb.1]
  · intro he
    exact composite_of_no_mask enhancedImage filter (hsame.trans he)

/-- Witness for C3: the universal part applied to the 2 x 2 example of the claim. -/
theorem mask_fusion_witness :
    ∃ r, composite (Mat.ofRows 0 [[10, 20], [30, 40]]) (Mat.ofRows 0 [[255, 0], [0, 255]])
        = .ok r
      ∧ r.px 0 0 = 10 ∧ r.px 0 1 = 255 ∧ r.px 1 0 = 255 ∧ r.px 1 1 = 40 := by
  obtain ⟨r, hok, -, -, hpx⟩ := (mask_fusion.1 (Mat.ofRows 0 [[10, 20], [30, 40]])
    (Mat.ofRows 0 [[255, 0], [0, 255]]) rfl rfl
    (by
      intro i hi j hj
      have hi2 : i < 2 := hi
      have hj2 : j < 2 := hj
      interval_cases i <;> interval_cases j <;> decide)
    (by
      intro i hi j hj
      have hi2 : i < 2 := hi
      have hj2 : j < 2 := hj
      interval_cases i <;> interval_cases j <;> decide)).1 rfl
  refine ⟨r, hok, ?_, ?_, ?_, ?_⟩
  · exact hpx 0 (by decide) 0 (by decide)
  · exact hpx 0 (by decide) 1 (by decide)
  · exact hpx 1 (by decide) 0 (by decide)
  · exact hpx 1 (by decide) 1 (by decide)

/-- C4, as the claim states it, fails: for the padded 1 x 1 image (41 x 41) and the bounds
`minRows = minCols = 0` the downsizing loop does not exit, whatever the number of
iterations allowed. -/
theorem downsizing_loops_forever :
    ¬ ∃ fuel, (downsizeLoop nearestResampler false 0 0 fuel
        (copyMakeBorder (grey 1 1) 20 20 20 20 255)).isSome = true := by
  rintro ⟨fuel, h⟩
  rw [downsizeLoop_diverges nearestResampler false 0 0 fuel _ (by decide) (by decide)
    (Or.inl (by decide))] at h
  cases h

/-- C4, amended. For every starting size with `rows, cols ≥ 1` and every pair of bounds,
the downsizing loop exits, after at most `rows + cols` iterations and on an image, when
`min rows 4 ≤ minRows` and `min cols 4 ≤ minCols`; otherwise, in particular when a bound
is not positive, it never exits: a dimension stops shrinking at 4 (the sizes up to 4 are
the fixed points of the resizing) and the loop makes no check for an iteration that
changes nothing. -/
theorem downsizing_termination {α : Type} (cubic : Resampler α) (verbose : Bool)
    (minRows minCols : Int) (input : Mat α) (hr : 1 ≤ input.rows) (hc : 1 ≤ input.cols) :
    (((min input.rows 4 : Nat) : Int) ≤ minRows ∧ ((min input.cols 4 : Nat) : Int) ≤ minCols →
      ∃ evs m, downsizeLoop cubic verbose minRows minCols (input.rows + input.cols) input
        = some (evs, .ok m))
    ∧ (¬ (((min input.rows 4 : Nat) : Int) ≤ minRows
          ∧ ((min input.cols 4 : Nat) : Int) ≤ minCols) →
        ∀ fuel, downsizeLoop cubic verbose minRows minCols fuel input = none)
    ∧ (minRows ≤ 0 ∨ minCols ≤ 0 →
        ∀ fuel, downsizeLoop cubic verbose minRows minCols fuel input = none)
    ∧ (∀ n, resizeDim n = n ↔ n ≤ 4) := by
  refine ⟨fun h => downsizeLoop_terminates cubic verbose minRows minCols _ input hr hc h.1 h.2
      (Nat.le_refl _), ?_, ?_, resizeDim_eq_self_iff⟩
  · intro h fuel
    exact downsizeLoop_diverges cubic verbose minRows minCols fuel input hr hc (by omega)
  · intro h fuel
    refine downsizeLoop_diverges cubic verbose minRows minCols fuel input hr hc ?_
    have h1 : 1 ≤ min input.rows 4 := Nat.le_min.2 ⟨hr, by decide⟩
    have h2 : 1 ≤ min input.cols 4 := Nat.le_min.2 ⟨hc, by decide⟩
    omega

/-- Witness for C4 amended: the 41 x 41 padded image with the bounds 4 and 4. -/
theorem downsizing_termination_witness :
    (1 ≤ (copyMakeBorder (grey 1 1) 20 20 20 20 255).rows
      ∧ 1 ≤ (copyMakeBorder (grey 1 1) 20 20 20 20 255).cols)
    ∧ ∃ evs m, downsizeLoop nearestResampler true 4 4
        ((copyMakeBorder (grey 1 1) 20 20 20 20 255).rows
          + (copyMakeBorder (grey 1 1) 20 20 20 20 255).cols)
        (copyMakeBorder (grey 1 1) 20 20 20 20 255) = some (evs, .ok m) :=
  ⟨⟨by decide, by decide⟩,
   (downsizing_termination nearestResampler true 4 4
      (copyMakeBorder (grey 1 1) 20 20 20 20 255) (by decide) (by decide)).1
      ⟨by decide, by decide⟩⟩

/-- C5, the code at an unreadable input. For the empty image that `cv::imread` returns on
failure, `main` does not take the invalid-image branch: padding comes first and turns it
into a 40 x 40 image with data, so the run never ends with `exit(1)`, and with downsizing
off it goes on to call the engine on that image. -/
theorem unreadable_image_not_rejected {α : Type} (E : FPEnhancement α) (cubic : Resampler α)
    (cfg : Config) (value : α) (px : Nat → Nat → α) (fuel : Nat) :
    (copyMakeBorder (⟨0, 0, px⟩ : Mat α) 20 20 20 20 value).rows = 40
    ∧ (copyMakeBorder (⟨0, 0, px⟩ : Mat α) 20 20 20 20 value).cols = 40
    ∧ (copyMakeBorder (⟨0, 0, px⟩ : Mat α) 20 20 20 20 value).hasData = true
    ∧ (∀ evs status, main E cubic cfg value ⟨0, 0, px⟩ fuel ≠ some (evs, .exited status))
    ∧ (∃ evs o, main E cubic { cfg with downsize := false } value ⟨0, 0, px⟩ fuel
          = some (evs, o) ∧ Event.extractFingerPrints ∈ evs) := by
  refine ⟨rfl, rfl, rfl, ?_, ?_⟩
  · intro evs status h
    unfold main at h
    simp only [padded_hasData, not_true_eq_false, if_false] at h
    split at h
    · cases h
    · cases h
    · have h2 := (Prod.mk.inj (Option.some.inj h)).2
      exact finish_not_exited _ _ _ _ h2
  · rw [main_of_not_downsize _ _ _ _ _ _ rfl]
    exact ⟨_, _, rfl, finish_calls_engine _ _ _⟩

/-- C6, as the claim states it, fails at the boundary: an image of height exactly 40 (and
width 100) is cropped without any error. -/
theorem crop_of_height_forty_succeeds :
    ¬ ∃ e, unpad 20 (grey 40 100) = Except.error e := by
  rw [unpad_error_iff]
  decide

/-- C6, amended. The crop of `main` raises an error, the range assertion, exactly for the
images whose height is below 40 or whose width is below 40; for a height or width of
exactly 40 (the other at least 40) it succeeds and yields an image without pixel data; for
both above 40 it yields the interior. Images with a dimension below 40 are reachable with
downsizing enabled and `minRows = minCols = 40`: a 1 x 1 input is padded to 41 x 41,
resized once to 37 x 37, and the run ends on the range assertion. -/
theorem crop_failure {α : Type} :
    (∀ m : Mat α,
      ((∃ e, unpad 20 m = .error e) ↔ (m.rows < 40 ∨ m.cols < 40))
      ∧ (∀ e, unpad 20 m = .error e → e = .badRange)
      ∧ (40 ≤ m.rows → 40 ≤ m.cols → m.rows = 40 ∨ m.cols = 40 →
          ∃ r, unpad 20 m = .ok r ∧ r.hasData = false)
      ∧ (40 < m.rows → 40 < m.cols →
          ∃ r, unpad 20 m = .ok r ∧ r.rows = m.rows - 40 ∧ r.cols = m.cols - 40
            ∧ ∀ i j, r.px i j = m.px (20 + i) (20 + j)))
    ∧ (∃ m, downsizeStage nearestResampler (options true false true 40 40) 1
          (copyMakeBorder (grey 1 1) 20 20 20 20 255) = some ([], .ok m)
        ∧ m.rows = 37 ∧ m.cols = 37)
    ∧ main identityEngine nearestResampler (options true false true 40 40) 255 (grey 1 1) 1
        = some ([Event.extractFingerPrints, Event.postProcessingFilter], .aborted .badRange) := by
  refine ⟨fun m => ⟨unpad_error_iff 20 m, fun e h => unpad_error_kind 20 m e h, ?_, ?_⟩,
    ⟨_, rfl, rfl, rfl⟩, rfl⟩
  · intro h1 h2 h3
    obtain ⟨r, hr, hr0, -⟩ := unpad_empty 20 m (by omega) (by omega) (by omega)
    exact ⟨r, hr, by simp [Mat.hasData, hr0]⟩
  · intro h1 h2
    exact unpad_ok 20 m (by omega) (by omega)

/-- Witness for C6 amended: a 39 x 100 image fails with the range assertion, a 41 x 41
image is cropped to its single interior pixel. -/
theorem crop_failure_witness :
    (∃ e, unpad 20 (grey 39 100) = .error e)
    ∧ ∃ r, unpad 20 (grey 41 41) = .ok r ∧ r.rows = 41 - 40 ∧ r.cols = 41 - 40
        ∧ ∀ i j, r.px i j = (grey 41 41).px (20 + i) (20 + j) :=
  ⟨((crop_failure.1 (grey 39 100)).1).2 (Or.inl (by decide)),
   (crop_failure.1 (grey 41 41)).2.2.2 (by decide) (by decide)⟩

/-- C7 (pass-through). With post-processing disabled the image handed to the crop is the
enhanced image returned by the engine, unchanged, so `endResult` is the crop of the raw
output of the engine: when that output is larger than 40 x 40, its interior
`[20, rows - 20) x [20, cols - 20)`. -/
theorem pass_through {α : Type} (E : FPEnhancement α) (cfg : Config) (input : Mat α)
    (hp : cfg.performPostprocessing = false) :
    beforeCrop E cfg input = .ok (E.extractFingerPrints input)
    ∧ endResultOf E cfg input = unpad 20 (E.extractFingerPrints input)
    ∧ (40 < (E.extractFingerPrints input).rows → 40 < (E.extractFingerPrints input).cols →
        ∃ r, endResultOf E cfg input = .ok r
          ∧ r.rows = (E.extractFingerPrints input).rows - 40
          ∧ r.cols = (E.extractFingerPrints input).cols - 40
          ∧ ∀ i j, r.px i j = (E.extractFingerPrints input).px (20 + i) (20 + j)) := by
  have h1 : beforeCrop E cfg input = .ok (E.extractFingerPrints input) := by
    unfold beforeCrop
    simp [hp]
  have h2 : endResultOf E cfg input = unpad 20 (E.extractFingerPrints input) := by
    unfold endResultOf
    rw [h1]
  refine ⟨h1, h2, ?_⟩
  intro hr hc
  rw [h2]
  exact unpad_ok 20 _ (by omega) (by omega)

/-- Witness for C7: the identity engine on a 42 x 43 working image. -/
theorem pass_through_witness :
    beforeCrop identityEngine (options false false false 1000 1000) (grey 42 43)
      = .ok (identityEngine.extractFingerPrints (grey 42 43))
    ∧ ∃ r, endResultOf identityEngine (options false false false 1000 1000) (grey 42 43) = .ok r
        ∧ r.rows = 2 ∧ r.cols = 3 ∧ ∀ i j, r.px i j = (grey 42 43).px (20 + i) (20 + j) :=
  ⟨(pass_through identityEngine (options false false false 1000 1000) (grey 42 43) rfl).1,
   (pass_through identityEngine (options false false false 1000 1000) (grey 42 43) rfl).2.2
     (by decide) (by decide)⟩

theorem endResultOf_of_postprocessing {α : Type} (E : FPEnhancement α) (cfg : Config)
    (input : Mat α) (hp : cfg.performPostprocessing = true) :
    endResultOf E cfg input
      = compositeCrop (E.extractFingerPrints input) (E.postProcessingFilter input) := by
  unfold endResultOf beforeCrop compositeCrop
  rw [if_pos hp]

theorem compositeCrop_of_mismatch (enhancedImage filter : Mat Int)
    (hdiff : ¬ (enhancedImage.rows = filter.rows ∧ enhancedImage.cols = filter.cols)) :
    compositeCrop enhancedImage filter
      = .error (if filter.hasData = true then .sizeMismatch else .badArg) := by
  by_cases hd : filter.hasData = true
  · rw [if_pos hd]
    unfold compositeCrop composite Mat.copyTo
    simp only [hd, not_true_eq_false, if_false, hdiff, not_false_eq_true, if_true]
  · rw [if_neg hd]
    have hdf : filter.hasData = false := by simpa using hd
    unfold compositeCrop
    rw [composite_of_no_mask _ _ hdf]

/-- C8, as the claim states it, fails: for an enhanced image with the size of the working
image and an empty mask, whose sizes differ, the masked copy degenerates to a plain copy
and raises nothing, and the run fails on the evaluation of `255 - filter`, with the
empty-operand error, which is no dimension-mismatch error. -/
theorem mismatch_reported_as_empty_operand :
    ¬ ((masklessEngine.extractFingerPrints (grey 41 41)).rows
          = (masklessEngine.postProcessingFilter (grey 41 41)).rows
        ∧ (masklessEngine.extractFingerPrints (grey 41 41)).cols
          = (masklessEngine.postProcessingFilter (grey 41 41)).cols)
    ∧ compositeCrop (masklessEngine.extractFingerPrints (grey 41 41))
          (masklessEngine.postProcessingFilter (grey 41 41)) = Except.error CvError.badArg
    ∧ CvError.isDimensionMismatch CvError.badArg = false
    ∧ main masklessEngine nearestResampler (options false false true 1000 1000) 255
          (grey 1 1) 0
        = some ([Event.extractFingerPrints, Event.postProcessingFilter],
            .aborted .badArg) :=
  ⟨by decide, rfl, rfl, rfl⟩

/-- C8, amended. For every enhanced image and mask whose sizes differ, the compositing
path of `main` (masked copy, 8-bit conversion, bitwise OR with `255 - mask`, crop) fails
with an exception and produces no end result, so that `main` aborts after the two engine
calls without displaying or saving anything. The exception is a dimension-mismatch error,
the size assertion of the masked copy, whenever the mask carries pixel data; when the mask
is empty the masked copy is a plain copy and the exception is the empty-operand error of
`255 - mask`. -/
theorem mismatch_is_fatal {α : Type} (E : FPEnhancement α) (cfg : Config) (input : Mat α)
    (hp : cfg.performPostprocessing = true)
    (hdiff : ¬ ((E.extractFingerPrints input).rows = (E.postProcessingFilter input).rows
      ∧ (E.extractFingerPrints input).cols = (E.postProcessingFilter input).cols)) :
    ∃ e, compositeCrop (E.extractFingerPrints input) (E.postProcessingFilter input) = .error e
      ∧ finish E cfg input
          = ([Event.extractFingerPrints, Event.postProcessingFilter], .aborted e)
      ∧ ((E.postProcessingFilter input).hasData = true →
          e = .sizeMismatch ∧ e.isDimensionMismatch = true)
      ∧ ((E.postProcessingFilter input).hasData = false → e = .badArg) := by
  have he := compositeCrop_of_mismatch _ _ hdiff
  refine ⟨_, he, ?_, ?_, ?_⟩
  · unfold finish
    rw [endResultOf_of_postprocessing E cfg input hp, he]
    simp [hp]
  · intro hd
    rw [if_pos hd]
    exact ⟨rfl, rfl⟩
  · intro hd
    rw [if_neg (by simp [hd])]

/-- Witness for C8 amended: an engine whose mask is one row short of its enhanced image. -/
theorem mismatch_is_fatal_witness :
    ∃ e, compositeCrop (grey 50 50) (grey 49 50) = .error e
      ∧ finish (⟨fun _ => grey 50 50, fun _ => grey 49 50⟩ : FPEnhancement Int)
          (options false false true 1000 1000) (grey 50 50)
          = ([Event.extractFingerPrints, Event.postProcessingFilter], .aborted e)
      ∧ e = .sizeMismatch ∧ e.isDimensionMismatch = true := by
  obtain ⟨e, h1, h2, h3, -⟩ := mismatch_is_fatal
    (⟨fun _ => grey 50 50, fun _ => grey 49 50⟩ : FPEnhancement Int)
    (options false false true 1000 1000) (grey 50 50) rfl (by decide)
  exact ⟨e, h1, h2, h3 rfl⟩

/-- C9 (working image after the downsizing stage). With downsizing disabled, or enabled
on an image already within the bounds, the working image is the padded image and nothing
is printed (no iteration); with downsizing enabled, whenever the loop exits on an image,
that image has `rows ≤ minRows` and `cols ≤ minCols` and running the stage on it again
returns it unchanged; and for bounds of at least 4 the loop does exit, within
`rows + cols` iterations. -/
theorem working_image_postcondition {α : Type} (cubic : Resampler α) (cfg : Config)
    (input : Mat α) :
    (cfg.downsize = false → ∀ fuel, downsizeStage cubic cfg fuel input = some ([], .ok input))
    ∧ (cfg.downsize = true → (input.rows : Int) ≤ cfg.minRows →
        (input.cols : Int) ≤ cfg.minCols →
        ∀ fuel, downsizeStage cubic cfg fuel input = some ([], .ok input))
    ∧ (cfg.downsize = true → ∀ fuel evs working,
        downsizeStage cubic cfg fuel input = some (evs, .ok working) →
        (working.rows : Int) ≤ cfg.minRows ∧ (working.cols : Int) ≤ cfg.minCols
          ∧ ∀ fuel2, downsizeStage cubic cfg fuel2 working = some ([], .ok working))
    ∧ (cfg.downsize = true → 4 ≤ cfg.minRows → 4 ≤ cfg.minCols → 1 ≤ input.rows →
        1 ≤ input.cols →
        ∃ evs working, downsizeStage cubic cfg (input.rows + input.cols) input
          = some (evs, .ok working)) := by
  refine ⟨?_, ?_, ?_, ?_⟩
  · intro hd fuel
    unfold downsizeStage
    simp [hd]
  · intro hd hr hc fuel
    unfold downsizeStage
    rw [if_pos hd]
    exact downsizeLoop_of_not_tooLarge _ _ _ _ _ _ (by unfold tooLarge; omega)
  · intro hd fuel evs working h
    unfold downsizeStage at h
    rw [if_pos hd] at h
    have hnt := downsizeLoop_exit _ _ _ _ _ _ _ _ h
    refine ⟨?_, ?_, ?_⟩
    · unfold tooLarge at hnt; omega
    · unfold tooLarge at hnt; omega
    · intro fuel2
      unfold downsizeStage
      rw [if_pos hd]
      exact downsizeLoop_of_not_tooLarge _ _ _ _ _ _ hnt
  · intro hd h1 h2 hr hc
    unfold downsizeStage
    rw [if_pos hd]
    have m1 : min input.rows 4 ≤ 4 := Nat.min_le_right _ _
    have m2 : min input.cols 4 ≤ 4 := Nat.min_le_right _ _
    exact downsizeLoop_terminates _ _ _ _ _ _ hr hc (by omega) (by omega) (Nat.le_refl _)

/-- Witness for C9: the padded 1 x 1 image with the bounds 40 and 40 is resized once, to
37 x 37, which is within the bounds and is left alone by a second run of the stage. -/
theorem working_image_postcondition_witness :
    downsizeStage nearestResampler (options true true true 40 40) 1
        (copyMakeBorder (grey 1 1) 20 20 20 20 255)
      = some ([Event.printDownsizing 41 41 36 36],
          .ok ⟨37, 37, nearestResampler (copyMakeBorder (grey 1 1) 20 20 20 20 255) 37 37⟩)
    ∧ ((37 : Int) ≤ 40 ∧ (37 : Int) ≤ 40
        ∧ ∀ fuel2, downsizeStage nearestResampler (options true true true 40 40) fuel2
            ⟨37, 37, nearestResampler (copyMakeBorder (grey 1 1) 20 20 20 20 255) 37 37⟩
          = some ([], .ok
              ⟨37, 37, nearestResampler (copyMakeBorder (grey 1 1) 20 20 20 20 255) 37 37⟩)) :=
  ⟨rfl,
   (working_image_postcondition nearestResampler (options true true true 40 40)
      (copyMakeBorder (grey 1 1) 20 20 20 20 255)).2.2.1 rfl 1 _ _ rfl⟩

/-- C10, the code against the claim. In verbose mode the "to" size printed for a 41 x 41
image is `(36, 36)` (the product truncated) while the resize that follows produces a
37 x 37 image (the product rounded); the verbose flag itself has no influence on the
images the loop goes through. -/
theorem verbose_prints_truncated_size :
    printedDim 41 = 36 ∧ resizeDim 41 = 37
    ∧ (∃ m, downsizeLoop nearestResampler true 40 40 1
          (copyMakeBorder (grey 1 1) 20 20 20 20 255)
          = some ([Event.printDownsizing 41 41 36 36], .ok m) ∧ m.rows = 37 ∧ m.cols = 37)
    ∧ (∀ (α : Type) (cubic : Resampler α) (minRows minCols : Int) (fuel : Nat)
        (input : Mat α),
        (downsizeLoop cubic true minRows minCols fuel input).map Prod.snd
          = (downsizeLoop cubic false minRows minCols fuel input).map Prod.snd) :=
  ⟨by decide, by decide, ⟨_, rfl, rfl, rfl⟩,
   fun _ cubic minRows minCols fuel input =>
     downsizeLoop_verbose_irrelevant cubic minRows minCols fuel input⟩

end FpEnhance
